import Mathlib

/-!
Verification development for the private chat messaging app
(two-party ephemeral chat rooms over a durable keyed store).

The definitions below are a shallow embedding of the repository's
source code:

* `jsonParse` / `stringifyElems` model the JavaScript `JSON.parse` /
  `JSON.stringify` builtins on the JSON subset that the membership field
  actually carries (flat arrays of scalars, scalar literals); values the
  code never produces and the claims never touch (nested arrays/objects)
  are conservatively rejected.
* `authNormalize` embeds the `connected`-field normalization of the
  auth middleware (`authMiddleware.derive`), `proxyNormalize` the
  normalization in `proxy.ts`.
* `RoomStore` and the redis helpers model the per-room slice of the
  durable store (meta hash, message list, history key, chat-transport
  key), each key carrying an optional absolute expiration instant; an
  elapsed expiration makes a key behave as absent, exactly as redis does.
* `admitHandler`, `authenticateStore`, `postEndpoint`, `listEndpoint`,
  `getTtlHandler`, `destroyHandler` embed the request handlers of
  `proxy.ts`, `authMiddleware` and `route.ts`.
-/

/-- An element of a decoded JSON array: either a JSON string (the only
shape real tokens have) or an opaque non-string scalar, tagged by its
literal kind.  JavaScript `includes` uses strict equality, so a
non-string element never equals a presented token string. -/
inductive JElem
  | s (v : String)
  | other (tag : String)
  deriving DecidableEq

/-- Result of `JSON.parse` on a stored membership value: a decoded
array, or a non-array scalar. -/
inductive JVal
  | arr (l : List JElem)
  | prim (tag : String)
  deriving DecidableEq

/-- A raw value of the `connected` hash field as returned by the
store client: either a string or an already-deserialized native array. -/
inductive Raw
  | strv (s : String)
  | arrv (l : List JElem)
  deriving DecidableEq

/-- Whitespace characters JSON.parse skips. -/
def isWsChar (c : Char) : Bool :=
  c = ' ' || c = '\t' || c = '\n' || c = '\r'

/-- Skip leading JSON whitespace. -/
def skipWs : List Char → List Char
  | [] => []
  | c :: cs => if isWsChar c then skipWs cs else c :: cs

/-- Undo a JSON escape (after the backslash). -/
def unescapeChar (c : Char) : Char :=
  if c = 'n' then '\n' else if c = 't' then '\t' else if c = 'r' then '\r' else c

/-- Parse the body of a JSON string literal (after the opening quote),
returning the decoded content and the rest of the input. -/
def parseStringBody : List Char → Option (String × List Char)
  | [] => none
  | c :: cs =>
    if c = '"' then some ("", cs)
    else if c = '\\' then
      match cs with
      | [] => none
      | e :: cs2 =>
        match parseStringBody cs2 with
        | some (s, rest) => some (String.mk (unescapeChar e :: s.data), rest)
        | none => none
    else
      match parseStringBody cs with
      | some (s, rest) => some (String.mk (c :: s.data), rest)
      | none => none

/-- Consume a literal character sequence, or fail. -/
def chopLit : List Char → List Char → Option (List Char)
  | [], cs => some cs
  | _ :: _, [] => none
  | p :: ps, c :: cs => if p = c then chopLit ps cs else none

/-- Split leading decimal digits from the rest. -/
def takeDigits (cs : List Char) : List Char × List Char :=
  (cs.takeWhile Char.isDigit, cs.dropWhile Char.isDigit)

/-- Parse the digits of a JSON number (after an optional minus sign):
integer part, optional fraction, optional exponent.  Returns the rest. -/
def parseNumberTail (cs : List Char) : Option (List Char) :=
  let (d1, r1) := takeDigits cs
  if d1.isEmpty then none
  else
    let r2 : Option (List Char) :=
      match r1 with
      | '.' :: rs =>
        let (d2, rr) := takeDigits rs
        if d2.isEmpty then none else some rr
      | _ => some r1
    match r2 with
    | none => none
    | some r2v =>
      match r2v with
      | 'e' :: rs | 'E' :: rs =>
        let rs2 : List Char :=
          match rs with
          | '+' :: t => t
          | '-' :: t => t
          | _ => rs
        let (d3, rr) := takeDigits rs2
        if d3.isEmpty then none else some rr
      | _ => some r2v

/-- Parse a JSON number token, returning the rest of the input. -/
def parseNumber (cs : List Char) : Option (List Char) :=
  match cs with
  | '-' :: rest => parseNumberTail rest
  | _ => parseNumberTail cs

/-- Parse one scalar JSON value (string, boolean, null or number). -/
def parseScalar (cs : List Char) : Option (JElem × List Char) :=
  match cs with
  | '"' :: rest =>
    match parseStringBody rest with
    | some (s, r) => some (JElem.s s, r)
    | none => none
  | _ =>
    match chopLit ['t', 'r', 'u', 'e'] cs with
    | some r => some (JElem.other "true", r)
    | none =>
      match chopLit ['f', 'a', 'l', 's', 'e'] cs with
      | some r => some (JElem.other "false", r)
      | none =>
        match chopLit ['n', 'u', 'l', 'l'] cs with
        | some r => some (JElem.other "null", r)
        | none =>
          match parseNumber cs with
          | some r => some (JElem.other "num", r)
          | none => none

/-- Parse the elements after the first one inside a JSON array
(a comma-separated tail terminated by a closing bracket).  The fuel is
an upper bound on the number of elements; callers pass the input length,
which always suffices. -/
def parseMoreElems : Nat → List Char → Option (List JElem × List Char)
  | 0, _ => none
  | fuel + 1, cs =>
    match skipWs cs with
    | ',' :: r =>
      match parseScalar (skipWs r) with
      | some (e, r2) =>
        match parseMoreElems fuel r2 with
        | some (es, r3) => some (e :: es, r3)
        | none => none
      | none => none
    | ']' :: r => some ([], r)
    | _ => none

/-- Parse the body of a JSON array (after the opening bracket). -/
def parseArrayBody (fuel : Nat) (cs : List Char) : Option (List JElem × List Char) :=
  match skipWs cs with
  | ']' :: r => some ([], r)
  | cs2 =>
    match parseScalar cs2 with
    | some (e, r) =>
      match parseMoreElems fuel r with
      | some (es, r2) => some (e :: es, r2)
      | none => none
    | none => none

/-- Tag of a scalar, used only to label non-array parse results. -/
def scalarTag : JElem → String
  | JElem.s v => v
  | JElem.other t => t

/-- Model of `JSON.parse` on membership values: a whole-input JSON
document that is either a flat array of scalars or a single scalar.
`none` models a thrown `SyntaxError`. -/
def jsonParse (str : String) : Option JVal :=
  match skipWs str.data with
  | '[' :: rest =>
    match parseArrayBody (str.data.length + 1) rest with
    | some (l, r) => if (skipWs r).isEmpty then some (JVal.arr l) else none
    | none => none
  | cs =>
    match parseScalar cs with
    | some (e, r) => if (skipWs r).isEmpty then some (JVal.prim (scalarTag e)) else none
    | none => none

/-- Membership normalization of the auth middleware
(`src/app/api/[[...slugs]]/auth.ts`): a native array is kept, a truthy
string is JSON-parsed and kept only if it parses to an array, everything
else — including a string that fails to parse (the `catch` branch) —
becomes the empty list.  `none` models a null `hget` result. -/
def authNormalize (v : Option Raw) : List JElem :=
  match v with
  | none => []
  | some (Raw.arrv l) => l
  | some (Raw.strv s) =>
    if s = "" then []
    else
      match jsonParse s with
      | some (JVal.arr l) => l
      | some (JVal.prim _) => []
      | none => []

/-- Membership normalization of `proxy.ts`: like the middleware, except
that a string which fails to JSON-parse is treated as a single legacy
token and becomes a one-element list. -/
def proxyNormalize (v : Option Raw) : List JElem :=
  match v with
  | none => []
  | some (Raw.strv s) =>
    if s = "" then []
    else
      match jsonParse s with
      | some (JVal.arr l) => l
      | some (JVal.prim _) => []
      | none => [JElem.s s]
  | some (Raw.arrv l) => l

/-- Serialize one array element the way `JSON.stringify` does; opaque
scalars keep their literal tag. -/
def escapeChar (c : Char) : List Char :=
  if c = '"' then ['\\', '"']
  else if c = '\\' then ['\\', '\\']
  else if c = '\n' then ['\\', 'n']
  else if c = '\t' then ['\\', 't']
  else if c = '\r' then ['\\', 'r']
  else [c]

/-- JSON string literal for a token. -/
def stringifyStr (s : String) : String :=
  String.mk ('"' :: (s.data.map escapeChar).flatten ++ ['"'])

/-- Serialize one decoded array element back to JSON text. -/
def stringifyElem : JElem → String
  | JElem.s v => stringifyStr v
  | JElem.other t => t

/-- Model of `JSON.stringify` on the membership array, as written by
`proxy.ts` (`JSON.stringify(updatedConnected)`) and room creation
(`JSON.stringify([])`). -/
def stringifyElems (l : List JElem) : String :=
  "[" ++ String.intercalate "," (l.map stringifyElem) ++ "]"

/-- A chat message as built by the messages POST handler.  The `token`
field is optional because the GET handler clears it on redaction
(`undefined` in the source). -/
structure Message where
  id : String
  sender : String
  text : String
  timestamp : Int
  roomId : String
  token : Option String
  deriving DecidableEq

/-- One stored entry of the room's message log, as seen by `lrange`:
a string whose `JSON.parse` either yields a message or throws
(`strv none`), an already-deserialized object, a null entry, or some
other non-string non-object value.  The JSON codec for log entries is
modeled by whether decoding succeeds, mirroring the GET handler's
`typeof` branches and its `catch`. -/
inductive MsgEntry
  | strv (payload : Option Message)
  | objv (m : Message)
  | nullv
  | otherv
  deriving DecidableEq

/-- The per-room slice of the durable store.  Each key holds a value
together with an optional absolute expiration instant (`none` = no
expiration); `now` is the store's clock in seconds.  `meta` is the
`meta:roomId` hash (only its `connected` field matters to the claims),
`messages` the `messages:roomId` list, `history` the `history:roomId`
key and `transport` the bare `roomId` key used by the event channel. -/
structure RoomStore where
  now : Int
  meta : Option (Raw × Option Int)
  messages : Option (List MsgEntry × Option Int)
  history : Option (Unit × Option Int)
  transport : Option (Unit × Option Int)
  deriving DecidableEq

/-- A store with no keys at all (a room that never existed). -/
def emptyStore (t : Int) : RoomStore :=
  { now := t, meta := none, messages := none, history := none, transport := none }

/-- Whether a key with the given expiration is live at instant `now`:
redis treats a key with an elapsed expiration as absent. -/
def liveAt (now : Int) (e : Option Int) : Bool :=
  match e with
  | none => true
  | some ex => decide (now < ex)

/-- Whether the room's metadata key currently exists (`redis.exists`). -/
def metaLive (s : RoomStore) : Bool :=
  match s.meta with
  | some (_, e) => liveAt s.now e
  | none => false

/-- The `connected` field as returned by `hgetall`/`hget` on the meta
key: `none` when the key is absent or expired. -/
def hgetallConnected (s : RoomStore) : Option Raw :=
  match s.meta with
  | some (r, e) => if liveAt s.now e then some r else none
  | none => none

/-- Redis `TTL`: `-2` for a missing or expired key, `-1` for a live key
without expiration, otherwise the remaining seconds. -/
def keyTtl {α : Type} (now : Int) (k : Option (α × Option Int)) : Int :=
  match k with
  | none => -2
  | some (_, e) =>
    if liveAt now e then
      match e with
      | none => -1
      | some ex => ex - now
    else -2

/-- Redis `EXPIRE`: a no-op on a missing or expired key; deletes the key
when the requested TTL is non-positive; otherwise sets the absolute
expiration to `now + n`. -/
def expireKey {α : Type} (now n : Int) (k : Option (α × Option Int)) :
    Option (α × Option Int) :=
  match k with
  | none => none
  | some (v, e) =>
    if liveAt now e then
      if n ≤ 0 then none else some (v, some (now + n))
    else some (v, e)

/-- Redis `HSET` of the `connected` field on the meta key: a live key
keeps its expiration; a missing or expired key is (re)created without
one. -/
def hsetMeta (s : RoomStore) (r : Raw) : RoomStore :=
  match s.meta with
  | some (_, e) =>
    if liveAt s.now e then { s with meta := some (r, e) }
    else { s with meta := some (r, none) }
  | none => { s with meta := some (r, none) }

/-- Redis `RPUSH` on the message log: appends to a live list, or creates
a fresh single-entry list (without expiration) when the key is missing
or expired. -/
def rpushMessages (s : RoomStore) (e : MsgEntry) : RoomStore :=
  match s.messages with
  | some (l, ex) =>
    if liveAt s.now ex then { s with messages := some (l ++ [e], ex) }
    else { s with messages := some ([e], none) }
  | none => { s with messages := some ([e], none) }

/-- Redis `LRANGE key 0 -1` on the message log. -/
def lrangeMessages (s : RoomStore) : List MsgEntry :=
  match s.messages with
  | some (l, ex) => if liveAt s.now ex then l else []
  | none => []

/-- The room lifetime constant `ROOM_TTL_SECONDS = 60 * 10`. -/
def ROOM_TTL_SECONDS : Int := 60 * 10

/-- The rooms POST /create handler: `hset` the meta hash with an empty
JSON-encoded membership list, then `expire` it to the fixed room TTL.
(The `createdAt` field is also written by the source but no claim reads
it, so the meta value tracks only `connected`.) -/
def createRoomHandler (s : RoomStore) : RoomStore :=
  let s1 := hsetMeta s (Raw.strv (stringifyElems []))
  { s1 with meta := expireKey s1.now ROOM_TTL_SECONDS s1.meta }

/-- Outcome of an admission attempt in `proxy.ts`: redirect with
`room-not-found`, silent pass-through for a recognized token, redirect
with `room-full`, or pass-through with a freshly issued token. -/
inductive Outcome
  | roomNotFound
  | reuse
  | roomFull
  | admitted
  deriving DecidableEq

/-- The decision core of `proxy.ts` on a snapshot of the meta hash
(`none` = `hgetall` returned null): reuse a non-empty presented token
found in the normalized membership, reject at capacity 2, otherwise
admit and produce the membership list to write back.  The second
component is the `hset` payload (`none` = no write). -/
def admitStep (snap : Option Raw) (presented : Option String) (fresh : String) :
    Outcome × Option (List JElem) :=
  match snap with
  | none => (Outcome.roomNotFound, none)
  | some raw =>
    let connected := proxyNormalize (some raw)
    let pv := presented.getD ""
    if pv ≠ "" ∧ JElem.s pv ∈ connected then (Outcome.reuse, none)
    else if 2 ≤ connected.length then (Outcome.roomFull, none)
    else (Outcome.admitted, some (connected ++ [JElem.s fresh]))

/-- The full admission handler of `proxy.ts` against the store: read the
meta hash, decide, and on admission set the cookie to the fresh token
and `hset` the JSON-encoded updated membership.  Returns the outcome,
the cookie set on the response (`none` = no new cookie), and the
resulting store. -/
def admitHandler (s : RoomStore) (presented : Option String) (fresh : String) :
    Outcome × Option String × RoomStore :=
  match admitStep (hgetallConnected s) presented fresh with
  | (o, none) => (o, none, s)
  | (o, some nl) => (o, some fresh, hsetMeta s (Raw.strv (stringifyElems nl)))

/-- A successful session descriptor derived by the auth middleware. -/
structure AuthSession where
  roomId : String
  token : String
  connected : List JElem
  deriving DecidableEq

/-- Result of the auth middleware's `derive` step. -/
inductive AuthResult
  | unauthorized
  | invalidToken
  | ok (session : AuthSession)
  deriving DecidableEq

/-- The auth middleware (`authMiddleware.derive`): missing or empty
`roomId` or cookie token fails with the `Unauthorized` error; a token
absent from the normalized membership list fails with the
`Invalid token` error; otherwise the session descriptor is returned. -/
def authenticateStore (roomId token : Option String) (s : RoomStore) : AuthResult :=
  let rid := roomId.getD ""
  let tok := token.getD ""
  if rid = "" ∨ tok = "" then AuthResult.unauthorized
  else
    let connected := authNormalize (hgetallConnected s)
    if JElem.s tok ∈ connected then AuthResult.ok ⟨rid, tok, connected⟩
    else AuthResult.invalidToken

/-- The middleware's `onError` hook: every `AuthError` — whichever of
the two failures it was — is surfaced as status 401 with the body
`Unauthorized`; a success produces no error response. -/
def authErrorResponse : AuthResult → Option (Nat × String)
  | AuthResult.ok _ => none
  | _ => some (401, "Unauthorized")

/-- The rooms GET /ttl handler: `redis.ttl` on the meta key, clamped to
`0` when non-positive. -/
def getTtlHandler (s : RoomStore) : Int :=
  let t := keyTtl s.now s.meta
  if 0 < t then t else 0

/-- The three redis keys deleted by room destruction. -/
inductive RKey
  | transport
  | meta
  | messages
  deriving DecidableEq

/-- An observable side effect of a handler: a publish on the room's
event channel, or a key deletion. -/
inductive Effect
  | publishMessage (m : Message)
  | publishDestroy
  | delKey (k : RKey)
  deriving DecidableEq

/-- The key deleted by an effect, if any. -/
def effDelTarget : Effect → Option RKey
  | Effect.delKey k => some k
  | _ => none

/-- The ordered effect trace of the rooms DELETE handler: the
`chat.destroy` publish is awaited first, then the three key deletions
are issued (`redis.del(roomId)`, `redis.del(meta:...)`,
`redis.del(messages:...)`). -/
def destroyEffects : List Effect :=
  [Effect.publishDestroy, Effect.delKey RKey.transport,
   Effect.delKey RKey.meta, Effect.delKey RKey.messages]

/-- Store transition of the rooms DELETE handler: the chat-transport,
metadata and message-log keys are removed; nothing else changes. -/
def destroyHandler (s : RoomStore) : RoomStore :=
  { s with transport := none, meta := none, messages := none }

/-- The body of a messages POST request before validation; `none`
models an omitted field. -/
structure PostBody where
  sender : Option String
  text : Option String
  deriving DecidableEq

/-- Result of the messages POST endpoint. -/
inductive PostResult
  | ok (m : Message)
  | roomNotFound
  | validationError
  deriving DecidableEq

/-- Whether a POST body passes the zod schema
`sender: z.string().max(100), text: z.string().max(1000)`. -/
def bodyValid (b : PostBody) : Bool :=
  match b.sender, b.text with
  | some sn, some tx => decide (sn.length ≤ 100) && decide (tx.length ≤ 1000)
  | _, _ => false

/-- The messages POST handler body (after validation): fail if the meta
key no longer exists; otherwise build the message, `rpush` it onto the
log, publish it unredacted on the channel, read the meta key's remaining
TTL and `expire` the message-log, history and chat-transport keys to it. -/
def postCore (s : RoomStore) (rid sn tx tok freshId : String) :
    PostResult × RoomStore × List Effect :=
  if metaLive s then
    let m : Message :=
      { id := freshId, sender := sn, text := tx, timestamp := s.now,
        roomId := rid, token := some tok }
    let s1 := rpushMessages s (MsgEntry.strv (some m))
    let remaining := keyTtl s1.now s1.meta
    let s2 := { s1 with
                messages := expireKey s1.now remaining s1.messages,
                history := expireKey s1.now remaining s1.history,
                transport := expireKey s1.now remaining s1.transport }
    (PostResult.ok m, s2, [Effect.publishMessage m])
  else (PostResult.roomNotFound, s, [])

/-- The messages POST endpoint: zod validation first (both fields
required and length-bounded), then the handler body. -/
def postEndpoint (s : RoomStore) (b : PostBody) (rid tok freshId : String) :
    PostResult × RoomStore × List Effect :=
  match b.sender, b.text with
  | some sn, some tx =>
    if sn.length ≤ 100 ∧ tx.length ≤ 1000 then postCore s rid sn tx tok freshId
    else (PostResult.validationError, s, [])
  | _, _ => (PostResult.validationError, s, [])

/-- Decoding of one stored log entry in the messages GET handler: a
string entry yields its parsed message or is dropped when `JSON.parse`
throws; an object entry is taken as-is; null and other values are
dropped. -/
def decodeEntry : MsgEntry → Option Message
  | MsgEntry.strv (some m) => some m
  | MsgEntry.strv none => none
  | MsgEntry.objv m => some m
  | MsgEntry.nullv => none
  | MsgEntry.otherv => none

/-- Token redaction in the messages GET handler:
`token: parsed.token === auth.token ? auth.token : undefined`. -/
def redactMsg (tok : String) (m : Message) : Message :=
  { m with token := if m.token = some tok then some tok else none }

/-- The messages GET handler over the raw log entries: drop null
entries, decode-and-redact each remaining entry (`null` on failure),
then drop the failures — mirroring the source's filter/map/filter
chain. -/
def listMessages (entries : List MsgEntry) (tok : String) : List Message :=
  (((entries.filter (fun e => decide (e ≠ MsgEntry.nullv))).map
      (fun raw => (decodeEntry raw).map (redactMsg tok))).filter
        (fun o => o.isSome)).reduceOption

/-- The messages GET endpoint against the store. -/
def listEndpoint (s : RoomStore) (tok : String) : List Message :=
  listMessages (lrangeMessages s) tok

/-- A room-scoped request issued after room creation, or the passage of
time between requests. -/
inductive Op
  | advance (dt : Nat)
  | admitOp (presented : Option String) (fresh : String)
  | postOp (b : PostBody) (rid tok freshId : String)
  | destroyOp
  | listOp (tok : String)
  | ttlOp
  deriving DecidableEq

/-- State transition of one operation (handler outputs discarded). -/
def applyOp (s : RoomStore) : Op → RoomStore
  | Op.advance dt => { s with now := s.now + (dt : Int) }
  | Op.admitOp p f => (admitHandler s p f).2.2
  | Op.postOp b rid tok fid => (postEndpoint s b rid tok fid).2.1
  | Op.destroyOp => destroyHandler s
  | Op.listOp _ => s
  | Op.ttlOp => s

/-- One in-flight admission request in the interleaving model of
`proxy.ts`: the presented cookie token and the fresh token `nanoid()`
would generate for it. -/
structure AdmitProc where
  presented : Option String
  fresh : String
  deriving DecidableEq

/-- Execution phase of an in-flight admission: not yet started, holding
its `hgetall` snapshot, or finished with an outcome. -/
inductive APhase
  | start
  | mid (snap : Option Raw)
  | done (o : Outcome)
  deriving DecidableEq

/-- A collection of concurrent admissions racing on one room: the
current `connected` value of the meta hash (`none` = key absent) and
the per-request phases. -/
structure AdmitSys where
  meta : Option Raw
  procs : List (AdmitProc × APhase)
  deriving DecidableEq

/-- One scheduler step: run the next awaited store operation of request
`i`.  A request at `start` performs its `hgetall` read; a request at
`mid` applies the decision logic to its snapshot and, when admitted,
performs its `hset` write of the snapshot-plus-fresh-token list —
exactly the plain read-then-write of the source. -/
def admitSysStep (sys : AdmitSys) (i : Nat) : AdmitSys :=
  match sys.procs[i]? with
  | none => sys
  | some (p, ph) =>
    match ph with
    | APhase.start =>
      { sys with procs := sys.procs.set i (p, APhase.mid sys.meta) }
    | APhase.mid snap =>
      match admitStep snap p.presented p.fresh with
      | (o, none) => { sys with procs := sys.procs.set i (p, APhase.done o) }
      | (o, some nl) =>
        { meta := some (Raw.strv (stringifyElems nl)),
          procs := sys.procs.set i (p, APhase.done o) }
    | APhase.done _ => sys

/-- Run a schedule of interleaved admission steps. -/
def runAdmits (sys : AdmitSys) (sched : List Nat) : AdmitSys :=
  sched.foldl admitSysStep sys

/-- Ten concurrent admissions against a fresh room (empty membership,
no cookies presented), with distinct fresh tokens. -/
def tenAdmitsInit : AdmitSys :=
  { meta := some (Raw.strv "[]"),
    procs := (List.range 10).map
      (fun i => ({ presented := none, fresh := "t" ++ toString i }, APhase.start)) }

/-- The schedule in which all ten `hgetall` reads complete before any
`hset` write starts — a legal interleaving of ten concurrent requests,
since every store operation is awaited I/O. -/
def tenAdmitsSched : List Nat :=
  List.range 10 ++ List.range 10

/-- The system state after running the ten racing admissions. -/
def tenAdmitsFinal : AdmitSys :=
  runAdmits tenAdmitsInit tenAdmitsSched

/-- The meta key's expiration-pinning invariant: the metadata key is
either gone or still carries its creation-time absolute expiration. -/
def metaPinned (E : Int) (s : RoomStore) : Prop :=
  s.meta = none ∨ ∃ r, s.meta = some (r, some E)

lemma expireKey_live {α : Type} (now n : Int) (v : α) (e : Option Int)
    (hl : liveAt now e = true) (hn : 0 < n) :
    expireKey now n (some (v, e)) = some (v, some (now + n)) := by
  unfold expireKey
  dsimp only
  rw [hl]
  simp only [if_true]
  rw [if_neg (by omega)]

lemma keyTtl_at (s : RoomStore) (r : Raw) (E : Int)
    (hmeta : s.meta = some (r, some E)) (hlive : s.now < E) :
    keyTtl s.now s.meta = E - s.now := by
  unfold keyTtl
  rw [hmeta]
  dsimp only
  rw [show liveAt s.now (some E) = true by simp [liveAt, hlive]]
  simp

lemma rpush_now (s : RoomStore) (e : MsgEntry) : (rpushMessages s e).now = s.now := by
  unfold rpushMessages
  rcases s.messages with _ | ⟨l, ex⟩
  · rfl
  · dsimp only
    split <;> rfl

lemma rpush_meta (s : RoomStore) (e : MsgEntry) : (rpushMessages s e).meta = s.meta := by
  unfold rpushMessages
  rcases s.messages with _ | ⟨l, ex⟩
  · rfl
  · dsimp only
    split <;> rfl

lemma rpush_history (s : RoomStore) (e : MsgEntry) :
    (rpushMessages s e).history = s.history := by
  unfold rpushMessages
  rcases s.messages with _ | ⟨l, ex⟩
  · rfl
  · dsimp only
    split <;> rfl

lemma rpush_transport (s : RoomStore) (e : MsgEntry) :
    (rpushMessages s e).transport = s.transport := by
  unfold rpushMessages
  rcases s.messages with _ | ⟨l, ex⟩
  · rfl
  · dsimp only
    split <;> rfl

lemma rpush_messages_shape (s : RoomStore) (e : MsgEntry) :
    ∃ ex2, (rpushMessages s e).messages = some (lrangeMessages s ++ [e], ex2) ∧
      liveAt s.now ex2 = true := by
  unfold rpushMessages lrangeMessages
  rcases s.messages with _ | ⟨l, ex⟩
  · exact ⟨none, rfl, rfl⟩
  · dsimp only
    by_cases hlv : liveAt s.now ex = true
    · rw [hlv]
      exact ⟨ex, by simp, hlv⟩
    · rw [Bool.not_eq_true] at hlv
      rw [hlv]
      exact ⟨none, by simp, rfl⟩

lemma hgetall_some_inv (s : RoomStore) (r : Raw) (h : hgetallConnected s = some r) :
    ∃ e, s.meta = some (r, e) ∧ liveAt s.now e = true := by
  unfold hgetallConnected at h
  rcases hm : s.meta with _ | ⟨r0, e⟩
  · rw [hm] at h
    exact absurd h (by simp)
  · rw [hm] at h
    dsimp only at h
    by_cases hl : liveAt s.now e = true
    · rw [hl] at h
      simp only [if_true] at h
      injection h with h2
      subst h2
      exact ⟨e, rfl, hl⟩
    · rw [Bool.not_eq_true] at hl
      rw [hl] at h
      simp at h

lemma admit_meta_cases (s : RoomStore) (p : Option String) (f : String) :
    (admitHandler s p f).2.2.meta = s.meta ∨
    ∃ rOld e nl, s.meta = some (rOld, e) ∧ liveAt s.now e = true ∧
      (admitHandler s p f).2.2.meta = some (Raw.strv (stringifyElems nl), e) := by
  unfold admitHandler
  rcases hg : hgetallConnected s with _ | r
  · left
    rfl
  · obtain ⟨e, hm, hl⟩ := hgetall_some_inv s r hg
    rcases hstep : admitStep (some r) p f with ⟨o, w⟩
    cases w with
    | none => left; rfl
    | some nl =>
      right
      refine ⟨r, e, nl, hm, hl, ?_⟩
      dsimp only
      unfold hsetMeta
      rw [hm]
      dsimp only
      rw [hl]
      rfl

lemma post_meta (s : RoomStore) (b : PostBody) (rid tok fid : String) :
    (postEndpoint s b rid tok fid).2.1.meta = s.meta := by
  rcases b with ⟨snO, txO⟩
  cases snO with
  | none => rfl
  | some sn =>
    cases txO with
    | none => rfl
    | some tx =>
      unfold postEndpoint
      dsimp only
      split
      · unfold postCore
        split
        · exact rpush_meta s _
        · rfl
      · rfl

lemma applyOp_pinned (E : Int) (s : RoomStore) (op : Op) (h : metaPinned E s) :
    metaPinned E (applyOp s op) := by
  cases op with
  | advance dt => exact h
  | admitOp p f =>
    rcases admit_meta_cases s p f with hsame | ⟨rOld, e, nl, hm, hl, hres⟩
    · unfold metaPinned applyOp
      rw [hsame]
      exact h
    · unfold metaPinned applyOp
      rw [hres]
      rcases h with h0 | ⟨r1, h1⟩
      · rw [h0] at hm
        exact absurd hm (by simp)
      · rw [h1] at hm
        injection hm with hm2
        injection hm2 with hma hmb
        right
        exact ⟨_, by rw [← hmb]⟩
  | postOp b rid tok fid =>
    unfold metaPinned applyOp
    rw [post_meta]
    exact h
  | destroyOp => left; rfl
  | listOp tok => exact h
  | ttlOp => exact h

lemma foldl_pinned (E : Int) (ops : List Op) :
    ∀ s, metaPinned E s → metaPinned E (ops.foldl applyOp s) := by
  induction ops with
  | nil => intro s h; exact h
  | cons op rest ih => intro s h; exact ih _ (applyOp_pinned E s op h)

lemma create_pinned (t0 : Int) :
    (createRoomHandler (emptyStore t0)).meta =
      some (Raw.strv "[]", some (t0 + ROOM_TTL_SECONDS)) := by
  show (expireKey t0 ROOM_TTL_SECONDS (some (Raw.strv "[]", none))) = _
  unfold expireKey
  dsimp only
  rw [show liveAt t0 (none : Option Int) = true from rfl]
  simp only [if_true]
  rw [if_neg (by norm_num [ROOM_TTL_SECONDS])]

/-- Claim C1: the claim asserts that under K >= 10 concurrent admissions
against a fresh room exactly 2 succeed with Admitted and the rest get
RoomFull.  The admission path is a plain read-then-write, so in the
legal interleaving where all ten `hgetall` reads complete before any
`hset` write, every request sees an empty membership list: all ten
admissions return Admitted, and the final stored membership holds only
the last writer's token (length 1).  This theorem evaluates the failing
schedule, refuting the exactly-2 property the claim (and the spec's
atomicity requirement) demands of the code. -/
theorem c1_concurrent_admissions_overrun :
    tenAdmitsFinal.procs.map (fun pp => pp.2) =
      List.replicate 10 (APhase.done Outcome.admitted) ∧
    tenAdmitsFinal.meta = some (Raw.strv "[\"t9\"]") ∧
    (proxyNormalize tenAdmitsFinal.meta).length = 1 := by
  refine ⟨by decide, by decide, by decide⟩

/-- Claim C2 (amended): for every store state and every NON-EMPTY token
already present in the normalized membership list, Admit returns outcome
Reuse, sets no cookie, and leaves the store (hence the membership list)
unchanged.  The non-empty qualifier is forced by the source's truthiness
check on the presented cookie value (see the counterexample). -/
theorem c2_reuse_idempotent (s : RoomStore) (t fresh : String)
    (hne : t ≠ "") (hmem : JElem.s t ∈ proxyNormalize (hgetallConnected s)) :
    admitHandler s (some t) fresh = (Outcome.reuse, none, s) := by
  unfold admitHandler admitStep
  cases hc : hgetallConnected s with
  | none => rw [hc] at hmem; simp [proxyNormalize] at hmem
  | some raw =>
    rw [hc] at hmem
    simp only [Option.getD_some]
    rw [if_pos ⟨hne, hmem⟩]

/-- Claim C2 counterexample: the empty-string token can sit in the
stored membership list (legacy value consisting of a JSON-encoded array
holding one empty string), yet presenting it does not yield Reuse: the
falsy cookie value skips the reuse branch, a fresh token is admitted and
the membership list grows — refuting the claim as stated for the empty
token. -/
theorem c2_counterexample :
    JElem.s "" ∈ proxyNormalize (hgetallConnected
      (⟨0, some (Raw.strv "[\"\"]", some 600), none, none, none⟩ : RoomStore)) ∧
    admitHandler (⟨0, some (Raw.strv "[\"\"]", some 600), none, none, none⟩ : RoomStore)
        (some "") "n1" =
      (Outcome.admitted, some "n1",
        ⟨0, some (Raw.strv "[\"\",\"n1\"]", some 600), none, none, none⟩) ∧
    Outcome.admitted ≠ Outcome.reuse := by
  decide

/-- Claim C2 witness: a concrete live room whose membership holds the
token `a`; re-presenting `a` yields Reuse and an unchanged store. -/
theorem c2_reuse_idempotent_witness :
    ("a" : String) ≠ "" ∧
    JElem.s "a" ∈ proxyNormalize (hgetallConnected
      (⟨0, some (Raw.strv "[\"a\"]", some 600), none, none, none⟩ : RoomStore)) ∧
    admitHandler (⟨0, some (Raw.strv "[\"a\"]", some 600), none, none, none⟩ : RoomStore)
        (some "a") "n" =
      (Outcome.reuse, none,
        ⟨0, some (Raw.strv "[\"a\"]", some 600), none, none, none⟩) :=
  ⟨by decide, by decide, c2_reuse_idempotent _ "a" "n" (by decide) (by decide)⟩

/-- Claim C3 (amended): both membership readers are total and agree on a
native array (kept as-is), on a JSON-decodable array string (its decoded
array) and on a JSON-decodable non-array value (the empty sequence); but
on a string that fails to JSON-parse they differ: the admission path
yields the one-element sequence holding the raw string while the Session
Authenticator yields the empty sequence.  An absent value is the empty
sequence on both. -/
theorem c3_normalization :
    (∀ l, authNormalize (some (Raw.arrv l)) = l ∧ proxyNormalize (some (Raw.arrv l)) = l) ∧
    (∀ src l, jsonParse src = some (JVal.arr l) →
      authNormalize (some (Raw.strv src)) = l ∧ proxyNormalize (some (Raw.strv src)) = l) ∧
    (∀ src tag, jsonParse src = some (JVal.prim tag) →
      authNormalize (some (Raw.strv src)) = [] ∧ proxyNormalize (some (Raw.strv src)) = []) ∧
    (∀ src, jsonParse src = none → src ≠ "" →
      authNormalize (some (Raw.strv src)) = [] ∧
      proxyNormalize (some (Raw.strv src)) = [JElem.s src]) ∧
    (authNormalize none = [] ∧ proxyNormalize none = []) := by
  have hemp : jsonParse "" = none := by decide
  refine ⟨fun l => ⟨rfl, rfl⟩, ?_, ?_, ?_, ⟨rfl, rfl⟩⟩
  · intro src l hp
    have hs : src ≠ "" := fun h => by rw [h, hemp] at hp; exact Option.noConfusion hp
    unfold authNormalize proxyNormalize
    dsimp only
    rw [if_neg hs, if_neg hs, hp]
    exact ⟨rfl, rfl⟩
  · intro src tag hp
    have hs : src ≠ "" := fun h => by rw [h, hemp] at hp; exact Option.noConfusion hp
    unfold authNormalize proxyNormalize
    dsimp only
    rw [if_neg hs, if_neg hs, hp]
    exact ⟨rfl, rfl⟩
  · intro src hp hs
    unfold authNormalize proxyNormalize
    dsimp only
    rw [if_neg hs, if_neg hs, hp]
    exact ⟨rfl, rfl⟩

/-- Claim C3 counterexample: the bare legacy string `tok` is not valid
JSON; the Session Authenticator normalizes it to the empty sequence
while the admission path normalizes it to the one-element sequence —
the two membership reads do NOT produce the same ordered sequence, and
the authenticator does not map a single non-array legacy value to the
one-element sequence containing it. -/
theorem c3_counterexample :
    authNormalize (some (Raw.strv "tok")) = [] ∧
    proxyNormalize (some (Raw.strv "tok")) = [JElem.s "tok"] ∧
    authNormalize (some (Raw.strv "tok")) ≠ proxyNormalize (some (Raw.strv "tok")) := by
  decide

/-- Claim C3 witness: concrete inputs for the amended normalization
theorem — a JSON array string decoded identically, and a non-JSON legacy
string kept as a singleton by the admission path. -/
theorem c3_normalization_witness :
    jsonParse "[\"a\",\"b\"]" = some (JVal.arr [JElem.s "a", JElem.s "b"]) ∧
    authNormalize (some (Raw.strv "[\"a\",\"b\"]")) = [JElem.s "a", JElem.s "b"] ∧
    jsonParse "tok2" = none ∧
    proxyNormalize (some (Raw.strv "tok2")) = [JElem.s "tok2"] :=
  ⟨by decide, (c3_normalization.2.1 "[\"a\",\"b\"]" [JElem.s "a", JElem.s "b"] (by decide)).1,
   by decide, (c3_normalization.2.2.2.1 "tok2" (by decide) (by decide)).2⟩

/-- Claim C4: a successful PostMessage on an existing room (live meta
key with absolute expiration E) returns the fully-populated message,
publishes exactly that unredacted message (token included) on the
channel, appends exactly one entry at the end of the room's ordered log,
never touches the meta key, and re-expires the message-log, history and
chat-transport keys to the meta key's current remaining TTL — their new
absolute expiration equals E, not a fresh full 600-second window. -/
theorem c4_post_success (s : RoomStore) (r : Raw) (E : Int) (sn tx rid tok fid : String)
    (hmeta : s.meta = some (r, some E)) (hlive : s.now < E)
    (hsn : sn.length ≤ 100) (htx : tx.length ≤ 1000) :
    (postEndpoint s ⟨some sn, some tx⟩ rid tok fid).1 =
      PostResult.ok ⟨fid, sn, tx, s.now, rid, some tok⟩ ∧
    (postEndpoint s ⟨some sn, some tx⟩ rid tok fid).2.2 =
      [Effect.publishMessage ⟨fid, sn, tx, s.now, rid, some tok⟩] ∧
    (postEndpoint s ⟨some sn, some tx⟩ rid tok fid).2.1.messages =
      some (lrangeMessages s ++ [MsgEntry.strv (some ⟨fid, sn, tx, s.now, rid, some tok⟩)],
        some E) ∧
    (postEndpoint s ⟨some sn, some tx⟩ rid tok fid).2.1.meta = s.meta ∧
    (∀ u eh, s.history = some (u, eh) → liveAt s.now eh = true →
      (postEndpoint s ⟨some sn, some tx⟩ rid tok fid).2.1.history = some (u, some E)) ∧
    (∀ u eh, s.transport = some (u, eh) → liveAt s.now eh = true →
      (postEndpoint s ⟨some sn, some tx⟩ rid tok fid).2.1.transport = some (u, some E)) := by
  have hml : metaLive s = true := by simp [metaLive, hmeta, liveAt, hlive]
  have hrem : keyTtl s.now s.meta = E - s.now := keyTtl_at s r E hmeta hlive
  have hpos : 0 < E - s.now := by omega
  have hEeq : s.now + (E - s.now) = E := by ring
  have hred : postEndpoint s ⟨some sn, some tx⟩ rid tok fid =
      postCore s rid sn tx tok fid := by
    unfold postEndpoint
    dsimp only
    rw [if_pos ⟨hsn, htx⟩]
  rw [hred]
  simp only [postCore, hml, if_true]
  rw [rpush_now, rpush_meta, rpush_history, rpush_transport, hrem]
  refine ⟨by trivial, by trivial, ?_, by trivial, ?_, ?_⟩
  · obtain ⟨ex2, hm2, hl2⟩ := rpush_messages_shape s
      (MsgEntry.strv (some ⟨fid, sn, tx, s.now, rid, some tok⟩))
    rw [hm2, expireKey_live s.now (E - s.now) _ ex2 hl2 hpos, hEeq]
  · intro u eh hh hl
    rw [hh, expireKey_live s.now (E - s.now) u eh hl hpos, hEeq]
  · intro u eh hh hl
    rw [hh, expireKey_live s.now (E - s.now) u eh hl hpos, hEeq]

/-- Claim C4 witness: a concrete room created 300 seconds before its
expiry at 400, posted to at instant 100: the log ends up expiring at
400, the meta key's instant — not at 100 + 600. -/
theorem c4_post_success_witness :
    (100 : Int) < 400 ∧ ("alice" : String).length ≤ 100 ∧ ("hi" : String).length ≤ 1000 ∧
    (postEndpoint
        (⟨100, some (Raw.strv "[]", some 400), some ([], some 400), none,
          some ((), some 400)⟩ : RoomStore)
        ⟨some "alice", some "hi"⟩ "r1" "A" "m1").2.1.messages =
      some ([MsgEntry.strv (some ⟨"m1", "alice", "hi", 100, "r1", some "A"⟩)], some 400) :=
  ⟨by decide, by decide, by decide, by
    have h := c4_post_success
      (⟨100, some (Raw.strv "[]", some 400), some ([], some 400), none,
        some ((), some 400)⟩ : RoomStore)
      (Raw.strv "[]") 400 "alice" "hi" "r1" "A" "m1" rfl (by decide) (by decide) (by decide)
    simpa using h.2.2.1⟩

/-- Claim C5: the messages GET handler equals, entry for entry and in
append order, the redaction map over the decodable log entries —
undecodable entries are skipped without failing the request — and a
returned message keeps its token exactly when the stored token equals
the requester's own; otherwise it is cleared. -/
theorem c5_list_redaction (entries : List MsgEntry) (tok : String) :
    listMessages entries tok = (entries.filterMap decodeEntry).map (redactMsg tok) ∧
    (∀ e m, e ∈ entries → decodeEntry e = some m →
      (((redactMsg tok m).token = some tok) ↔ m.token = some tok) ∧
      (m.token ≠ some tok → (redactMsg tok m).token = none)) := by
  constructor
  · induction entries with
    | nil => rfl
    | cons e es ih =>
      cases e with
      | strv p =>
        cases p with
        | none => simpa [listMessages, decodeEntry, List.reduceOption] using ih
        | some m => simpa [listMessages, decodeEntry, List.reduceOption] using ih
      | objv m => simpa [listMessages, decodeEntry, List.reduceOption] using ih
      | nullv => simpa [listMessages, decodeEntry, List.reduceOption] using ih
      | otherv => simpa [listMessages, decodeEntry, List.reduceOption] using ih
  · intro e m hme hdec
    unfold redactMsg
    constructor
    · constructor
      · intro h
        by_contra hne
        rw [if_neg hne] at h
        exact Option.noConfusion h
      · intro h
        rw [if_pos h]
    · intro hne
      rw [if_neg hne]

/-- Claim C5 witness: a three-entry log (one good object entry, one
string entry whose parse fails, one null entry) listed by requester `A`:
the handler output equals the redaction map over the single decodable
entry, and the requester's own message keeps its token. -/
theorem c5_list_redaction_witness :
    listMessages [MsgEntry.objv ⟨"i1", "al", "hi", 0, "r", some "A"⟩,
        MsgEntry.strv none, MsgEntry.nullv] "A" =
      ([MsgEntry.objv ⟨"i1", "al", "hi", 0, "r", some "A"⟩, MsgEntry.strv none,
        MsgEntry.nullv].filterMap decodeEntry).map (redactMsg "A") ∧
    ((redactMsg "A" (⟨"i1", "al", "hi", 0, "r", some "A"⟩ : Message)).token = some "A" ↔
      (⟨"i1", "al", "hi", 0, "r", some "A"⟩ : Message).token = some "A") :=
  ⟨(c5_list_redaction [MsgEntry.objv ⟨"i1", "al", "hi", 0, "r", some "A"⟩,
      MsgEntry.strv none, MsgEntry.nullv] "A").1,
   ((c5_list_redaction [MsgEntry.objv ⟨"i1", "al", "hi", 0, "r", some "A"⟩] "A").2
      (MsgEntry.objv ⟨"i1", "al", "hi", 0, "r", some "A"⟩)
      ⟨"i1", "al", "hi", 0, "r", some "A"⟩ (by decide) (by decide)).1⟩

/-- Claim C6: room destruction publishes the `chat.destroy` event
strictly before any key deletion in its awaited effect order, deletes
exactly the chat-transport, metadata and message-log keys (the history
key is untouched), and afterwards the room behaves as if it never
existed: Admit yields RoomNotFound (never RoomFull), authentication
behaves exactly as on a store with no keys, a validated PostMessage
yields RoomNotFound, the log reads empty and the remaining TTL is 0. -/
theorem c6_destroy (s : RoomStore) :
    (∀ (j : Nat) (k : RKey), destroyEffects[j]? = some (Effect.delKey k) →
      ∃ i : Nat, i < j ∧ destroyEffects[i]? = some Effect.publishDestroy) ∧
    destroyEffects.filterMap effDelTarget = [RKey.transport, RKey.meta, RKey.messages] ∧
    (destroyHandler s).history = s.history ∧
    (∀ p f, (admitHandler (destroyHandler s) p f).1 = Outcome.roomNotFound) ∧
    (∀ p f, (admitHandler (destroyHandler s) p f).1 ≠ Outcome.roomFull) ∧
    (∀ ro tk, authenticateStore ro tk (destroyHandler s) =
      authenticateStore ro tk (emptyStore (destroyHandler s).now)) ∧
    (∀ b rid tok fid, bodyValid b = true →
      (postEndpoint (destroyHandler s) b rid tok fid).1 = PostResult.roomNotFound) ∧
    (∀ tok, listEndpoint (destroyHandler s) tok = []) ∧
    getTtlHandler (destroyHandler s) = 0 := by
  have hadm : ∀ p f, (admitHandler (destroyHandler s) p f).1 = Outcome.roomNotFound := by
    intro p f
    rfl
  refine ⟨?_, rfl, rfl, hadm, ?_, ?_, ?_, ?_, ?_⟩
  · intro j k h
    match j with
    | 0 => exact absurd h (by simp [destroyEffects])
    | 1 => exact ⟨0, by omega, rfl⟩
    | 2 => exact ⟨0, by omega, rfl⟩
    | 3 => exact ⟨0, by omega, rfl⟩
    | n + 4 => exact absurd h (by simp [destroyEffects])
  · intro p f
    rw [hadm p f]
    decide
  · intro ro tk
    rfl
  · intro b rid tok fid hbv
    rcases b with ⟨snO, txO⟩
    cases snO with
    | none => exact absurd hbv (by simp [bodyValid])
    | some sn =>
      cases txO with
      | none => exact absurd hbv (by simp [bodyValid])
      | some tx =>
        have hlen : sn.length ≤ 100 ∧ tx.length ≤ 1000 := by
          simpa [bodyValid] using hbv
        unfold postEndpoint
        dsimp only
        rw [if_pos hlen]
        rfl
  · intro tok
    rfl
  · simp [getTtlHandler, destroyHandler, keyTtl]

/-- Claim C6 witness: destroying a concrete live room, then posting a
valid message against it, yields RoomNotFound. -/
theorem c6_destroy_witness :
    bodyValid ⟨some "al", some "hi"⟩ = true ∧
    (postEndpoint
        (destroyHandler (⟨5, some (Raw.strv "[]", some 700), none, none,
          some ((), some 700)⟩ : RoomStore))
        ⟨some "al", some "hi"⟩ "r" "t" "i").1 = PostResult.roomNotFound :=
  ⟨by decide,
   (c6_destroy (⟨5, some (Raw.strv "[]", some 700), none, none,
      some ((), some 700)⟩ : RoomStore)).2.2.2.2.2.2.1
     ⟨some "al", some "hi"⟩ "r" "t" "i" (by decide)⟩

/-- Claim C7: authentication fails with the Unauthorized error whenever
roomId or token is missing (empty-or-absent, as the source's truthiness
check defines presence); a present pair whose token is absent from the
normalized membership fails with the InvalidToken error; both failure
kinds surface as the single fixed response 401/Unauthorized; and a
present, recognized pair yields the session descriptor carrying the
roomId, the token and the normalized membership list. -/
theorem c7_auth_contract (roomId token : Option String) (s : RoomStore) :
    ((roomId.getD "" = "" ∨ token.getD "" = "") →
      authenticateStore roomId token s = AuthResult.unauthorized) ∧
    (∀ rid tok, roomId = some rid → token = some tok → rid ≠ "" → tok ≠ "" →
      JElem.s tok ∉ authNormalize (hgetallConnected s) →
      authenticateStore roomId token s = AuthResult.invalidToken) ∧
    (∀ rid tok, roomId = some rid → token = some tok → rid ≠ "" → tok ≠ "" →
      JElem.s tok ∈ authNormalize (hgetallConnected s) →
      authenticateStore roomId token s =
        AuthResult.ok ⟨rid, tok, authNormalize (hgetallConnected s)⟩) ∧
    (authErrorResponse AuthResult.unauthorized = some (401, "Unauthorized") ∧
      authErrorResponse AuthResult.invalidToken = some (401, "Unauthorized")) := by
  refine ⟨?_, ?_, ?_, ⟨rfl, rfl⟩⟩
  · intro h
    unfold authenticateStore
    rw [if_pos h]
  · intro rid tok hr ht hrne htne hnm
    unfold authenticateStore
    subst hr ht
    simp only [Option.getD_some]
    rw [if_neg (by tauto), if_neg hnm]
  · intro rid tok hr ht hrne htne hm
    unfold authenticateStore
    subst hr ht
    simp only [Option.getD_some]
    rw [if_neg (by tauto), if_pos hm]

/-- Claim C7 witness: a live room holding token `a`: presenting it
succeeds with the session descriptor, while missing credentials are
rejected with the Unauthorized error. -/
theorem c7_auth_contract_witness :
    authenticateStore (some "r") (some "a")
      (⟨0, some (Raw.strv "[\"a\"]", some 600), none, none, none⟩ : RoomStore) =
      AuthResult.ok ⟨"r", "a", authNormalize (hgetallConnected
        (⟨0, some (Raw.strv "[\"a\"]", some 600), none, none, none⟩ : RoomStore))⟩ ∧
    authenticateStore none none
      (⟨0, some (Raw.strv "[\"a\"]", some 600), none, none, none⟩ : RoomStore) =
      AuthResult.unauthorized :=
  ⟨(c7_auth_contract (some "r") (some "a")
      (⟨0, some (Raw.strv "[\"a\"]", some 600), none, none, none⟩ : RoomStore)).2.2.1
      "r" "a" rfl rfl (by decide) (by decide) (by decide),
   (c7_auth_contract none none
      (⟨0, some (Raw.strv "[\"a\"]", some 600), none, none, none⟩ : RoomStore)).1
      (Or.inl (by decide))⟩

/-- Claim C8: the messages POST endpoint yields RoomNotFound exactly
when the body passes validation and the meta key no longer exists at
post time; a body failing the schema (missing field, sender over 100
characters or text over 1000) is rejected with a validation error; and
every failing call leaves the store unchanged and publishes nothing. -/
theorem c8_post_errors (s : RoomStore) (b : PostBody) (rid tok fid : String) :
    ((postEndpoint s b rid tok fid).1 = PostResult.roomNotFound ↔
      (bodyValid b = true ∧ metaLive s = false)) ∧
    (bodyValid b = false → (postEndpoint s b rid tok fid).1 = PostResult.validationError) ∧
    (((postEndpoint s b rid tok fid).1 = PostResult.roomNotFound ∨
      (postEndpoint s b rid tok fid).1 = PostResult.validationError) →
      (postEndpoint s b rid tok fid).2.1 = s ∧ (postEndpoint s b rid tok fid).2.2 = []) := by
  obtain ⟨snO, txO⟩ := b
  cases snO with
  | none => simp [postEndpoint, bodyValid]
  | some sn =>
    cases txO with
    | none => simp [postEndpoint, bodyValid]
    | some tx =>
      by_cases hv : sn.length ≤ 100 ∧ tx.length ≤ 1000
      · by_cases hml : metaLive s
        · simp [postEndpoint, bodyValid, postCore, hv, hv.1, hv.2, hml]
        · simp [postEndpoint, bodyValid, postCore, hv, hv.1, hv.2, hml]
      · have hbv : bodyValid ⟨some sn, some tx⟩ = false := by
          simp only [bodyValid, Bool.and_eq_false_iff, decide_eq_false_iff_not]
          omega
        simp [postEndpoint, hv, hbv]

/-- Claim C8 witness: a valid body posted against a store whose meta key
is absent yields RoomNotFound. -/
theorem c8_post_errors_witness :
    bodyValid ⟨some "al", some "hi"⟩ = true ∧
    metaLive (emptyStore 0) = false ∧
    (postEndpoint (emptyStore 0) ⟨some "al", some "hi"⟩ "r" "t" "i").1 =
      PostResult.roomNotFound :=
  ⟨by decide, by decide,
   (c8_post_errors (emptyStore 0) ⟨some "al", some "hi"⟩ "r" "t" "i").1.mpr
     ⟨by decide, by decide⟩⟩

/-- Claim C9: the TTL handler never returns a negative value, and
returns 0 whenever the room's meta key is expired or absent — even
though the underlying store reports the negative sentinels -2 and -1. -/
theorem c9_ttl_nonnegative (s : RoomStore) :
    0 ≤ getTtlHandler s ∧
    (metaLive s = false → getTtlHandler s = 0) ∧
    (keyTtl s.now s.meta < 0 → getTtlHandler s = 0) := by
  have hdead : metaLive s = false → keyTtl s.now s.meta = -2 := by
    intro h
    unfold metaLive at h
    unfold keyTtl
    cases hm : s.meta with
    | none => rfl
    | some p =>
      obtain ⟨r, e⟩ := p
      rw [hm] at h
      dsimp only at h ⊢
      rw [h]
      simp
  simp only [getTtlHandler]
  refine ⟨by split <;> omega, ?_, by intro h; split <;> omega⟩
  intro h
  rw [hdead h]
  simp

/-- Claim C9 witness: a store whose room expired (meta key present but
with elapsed expiration) reports a remaining TTL of 0. -/
theorem c9_ttl_nonnegative_witness :
    metaLive (⟨700, some (Raw.strv "[]", some 600), none, none, none⟩ : RoomStore) = false ∧
    getTtlHandler
      (⟨700, some (Raw.strv "[]", some 600), none, none, none⟩ : RoomStore) = 0 :=
  ⟨by decide,
   (c9_ttl_nonnegative
     (⟨700, some (Raw.strv "[]", some 600), none, none, none⟩ : RoomStore)).2.1 (by decide)⟩

/-- Claim C10: after room creation pins the meta key's absolute
expiration to creation time plus 600 seconds, no sequence of later
operations (time passing, admissions, posts, destruction, reads) ever
changes it: the meta key is always either gone or still carries the
creation-time expiration, so once 600 seconds have elapsed the room is
non-existent.  Additionally, PostMessage never touches the meta key at
all, and Admit's membership write preserves the key's expiration
component. -/
theorem c10_ttl_never_extended (ops : List Op) (t0 : Int) :
    ((ops.foldl applyOp (createRoomHandler (emptyStore t0))).meta = none ∨
      ∃ r, (ops.foldl applyOp (createRoomHandler (emptyStore t0))).meta =
        some (r, some (t0 + ROOM_TTL_SECONDS))) ∧
    (t0 + ROOM_TTL_SECONDS ≤ (ops.foldl applyOp (createRoomHandler (emptyStore t0))).now →
      metaLive (ops.foldl applyOp (createRoomHandler (emptyStore t0))) = false) ∧
    (∀ s2 b rid tok fid, (postEndpoint s2 b rid tok fid).2.1.meta = s2.meta) ∧
    (∀ (s2 : RoomStore) p f, (admitHandler s2 p f).2.2.meta = s2.meta ∨
      ∃ r0 e r1, s2.meta = some (r0, e) ∧ (admitHandler s2 p f).2.2.meta = some (r1, e)) := by
  have hbase : metaPinned (t0 + ROOM_TTL_SECONDS) (createRoomHandler (emptyStore t0)) :=
    Or.inr ⟨_, create_pinned t0⟩
  have hp := foldl_pinned (t0 + ROOM_TTL_SECONDS) ops _ hbase
  refine ⟨hp, ?_, post_meta, ?_⟩
  · intro hnow
    rcases hp with h0 | ⟨r, h1⟩
    · simp [metaLive, h0]
    · simp only [metaLive, h1, liveAt]
      simpa using by omega
  · intro s2 p f
    rcases admit_meta_cases s2 p f with hsame | ⟨rOld, e, nl, hm, hl, hres⟩
    · exact Or.inl hsame
    · exact Or.inr ⟨rOld, e, _, hm, hres⟩

/-- Claim C10 witness: a room created at instant 0 and left alone for
600 seconds is non-existent. -/
theorem c10_ttl_never_extended_witness :
    (0 : Int) + ROOM_TTL_SECONDS ≤
      ([Op.advance 600].foldl applyOp (createRoomHandler (emptyStore 0))).now ∧
    metaLive ([Op.advance 600].foldl applyOp (createRoomHandler (emptyStore 0))) = false :=
  ⟨by decide, (c10_ttl_never_extended [Op.advance 600] 0).2.1 (by decide)⟩
